/-
Verification of the `highscore-cloudrun-service` leaderboard handler
(`main.py`).  The service is a single HTTP endpoint backed by one JSON blob:
`main` routes `/` to `list_highscores` and `POST /submit` to `submit`, which
validates the `name`/`score` query parameters, reads the persisted JSON
array, prepends a new entry, re-sorts descending by score with a stable
sort, truncates to 10 entries, writes the result back and returns it.

Shallow embedding conventions:
* JSON numbers are modelled exactly as `Decimal` values `mant / 10 ^ exp`
  (an integer literal has `exp = 0`); Python float arithmetic is modelled
  on the exact decimal value.
* The blob store is a `Storage` record threaded through the handlers;
  exceptions that `main.py` does not catch are modelled as `Except.error`.
* `datetime.datetime.now().isoformat()` is a nondeterministic input and is
  passed to the handlers as the explicit argument `now`.
-/
import Mathlib

namespace Asteroids

/-! ### Exact decimal numbers

`Decimal` is the number type of the embedding: the value is
`mant / 10 ^ exp`.  JSON distinguishes integer literals (`exp = 0`) from
float literals (`exp` = number of digits after the point), so the
serializer below is injective on this representation. -/

structure Decimal where
  mant : ℤ
  exp : ℕ
deriving DecidableEq, Repr

/-- The rational value of a decimal. -/
def Decimal.toRat (d : Decimal) : ℚ := (d.mant : ℚ) / 10 ^ d.exp

/-- Value comparison of two decimals, by cross multiplication (kept in `ℤ`
so that it evaluates in the kernel). -/
def Decimal.le (a b : Decimal) : Prop := a.mant * 10 ^ b.exp ≤ b.mant * 10 ^ a.exp

instance : DecidableRel Decimal.le := fun a b =>
  inferInstanceAs (Decidable (a.mant * 10 ^ b.exp ≤ b.mant * 10 ^ a.exp))

theorem Decimal.le_iff_toRat {a b : Decimal} : a.le b ↔ a.toRat ≤ b.toRat := by
  unfold Decimal.le Decimal.toRat
  rw [div_le_div_iff₀ (by positivity) (by positivity)]
  exact_mod_cast Iff.rfl

/-! ### Score entries and the sort order -/

/-- One element of the persisted JSON array:
`{"name": ..., "score": ..., "timestamp": ...}`. -/
structure ScoreEntry where
  name : String
  score : Decimal
  timestamp : String
deriving DecidableEq, Repr

abbrev Leaderboard := List ScoreEntry

/-- Relation `entryGE a b` holds when `a`'s score is at least `b`'s score: the order
in which `sorted(data, key=lambda x: -x["score"])` arranges entries
(ascending in the key `-score` is descending in `score`). -/
def entryGE (a b : ScoreEntry) : Prop := Decimal.le b.score a.score

instance : DecidableRel entryGE := fun a b =>
  inferInstanceAs (Decidable (Decimal.le b.score a.score))

instance : IsTotal ScoreEntry entryGE :=
  ⟨fun a b => by
    unfold entryGE
    rw [Decimal.le_iff_toRat, Decimal.le_iff_toRat]
    exact le_total b.score.toRat a.score.toRat⟩

instance : IsTrans ScoreEntry entryGE :=
  ⟨fun a b c hab hbc => by
    unfold entryGE at hab hbc ⊢
    rw [Decimal.le_iff_toRat] at hab hbc ⊢
    exact le_trans hbc hab⟩

/-! ### Digit values and signs (shared by the float model and the JSON reader) -/

/-- Numeric value of a run of decimal digit characters. -/
def digitsVal (l : List Char) : ℕ := l.foldl (fun a c => 10 * a + (c.toNat - 48)) 0

/-- Apply an optional minus sign. -/
def applySign (neg : Bool) (n : ℕ) : ℤ := if neg then -(n : ℤ) else (n : ℤ)

/-- Split an optional leading `-`/`+` sign. -/
def splitSign : List Char → Bool × List Char
  | [] => (false, [])
  | c :: cs =>
    if c = '-' then (true, cs)
    else if c = '+' then (false, cs)
    else (false, c :: cs)

/-! ### JSON text for the persisted format: model of `json.dumps` / `json.loads`

`write_storage` persists the leaderboard as `json.dumps(data)`: a JSON array
of objects with keys `name`, `score`, `timestamp` in that (insertion) order,
with the default separators `", "` and `": "`.  `submit` reads it back with
`json.loads`.  The printer below follows `json.dumps` (string escaping with
the short escapes and `\u00XX` for other control characters; numbers as
decimal literals); the reader is `json.loads` restricted to exactly this
schema, failing — which models the uncaught exception — on any other
input. -/

/-- The decimal digit character for `d < 10`. -/
def digitChar (d : ℕ) : Char := Char.ofNat (48 + d)

/-- Big-endian digit characters of `n`; structural on the `fuel` argument so
that it reduces in the kernel. -/
def natCharsAux : ℕ → ℕ → List Char
  | 0, _ => []
  | fuel + 1, n => if n = 0 then [] else natCharsAux fuel (n / 10) ++ [digitChar (n % 10)]

/-- Base-10 rendering of a natural number. -/
def natChars (n : ℕ) : List Char := if n = 0 then ['0'] else natCharsAux n n

/-- Lower-case hexadecimal digit character for `n < 16`. -/
def hexDig (n : ℕ) : Char := if n < 10 then Char.ofNat (48 + n) else Char.ofNat (87 + n)

/-- Value of a hexadecimal digit character. -/
def hexVal (c : Char) : Option ℕ :=
  if '0' ≤ c ∧ c ≤ '9' then some (c.toNat - 48)
  else if 'a' ≤ c ∧ c ≤ 'f' then some (c.toNat - 87)
  else if 'A' ≤ c ∧ c ≤ 'F' then some (c.toNat - 55)
  else none

/-- JSON string-character escaping as performed by `json.dumps`: `\"`, `\\`,
the short escapes for backspace, tab, newline, form feed and carriage
return, `\u00XX` for the remaining control characters, and every other
character verbatim. -/
def escChar (c : Char) : List Char :=
  if c = '"' then ['\\', '"']
  else if c = '\\' then ['\\', '\\']
  else if c = Char.ofNat 8 then ['\\', 'b']
  else if c = Char.ofNat 9 then ['\\', 't']
  else if c = Char.ofNat 10 then ['\\', 'n']
  else if c = Char.ofNat 12 then ['\\', 'f']
  else if c = Char.ofNat 13 then ['\\', 'r']
  else if c.toNat < 32 then ['\\', 'u', '0', '0', hexDig (c.toNat / 16), hexDig (c.toNat % 16)]
  else [c]

/-- Escape every character of a string body. -/
def escStr (l : List Char) : List Char := l.foldr (fun c acc => escChar c ++ acc) []

/-- A JSON string literal: `"` body `"`. -/
def dumpStr (s : String) : List Char := '"' :: (escStr s.data ++ ['"'])

/-- Left-pad a digit string with `'0'` to length at least `k`. -/
def padTo (k : ℕ) (l : List Char) : List Char :=
  if l.length < k then List.replicate (k - l.length) '0' ++ l else l

/-- The unsigned part of a JSON number literal for `|mant| / 10 ^ exp`: an
integer literal when `exp = 0`, otherwise a float literal with exactly
`exp` digits after the point. -/
def dumpNumBody (d : Decimal) : List Char :=
  if d.exp = 0 then natChars d.mant.natAbs
  else
    let ds := padTo (d.exp + 1) (natChars d.mant.natAbs)
    ds.take (ds.length - d.exp) ++ '.' :: ds.drop (ds.length - d.exp)

/-- A JSON number literal for `mant / 10 ^ exp` (as `repr` prints the
integers and floats produced by `json.loads` and `round(x, 1)`). -/
def dumpNum (d : Decimal) : List Char :=
  (if d.mant < 0 then ['-'] else []) ++ dumpNumBody d

/-- The character list of a string literal (for fixed pieces of the JSON
text). -/
def lit (s : String) : List Char := s.data

/-- Encoding by `json.dumps` of one `ScoreEntry` dict, keys in insertion order
(`name`, `score`, `timestamp`), default separators. -/
def dumpEntry (e : ScoreEntry) : List Char :=
  lit "\x7b\"name\": " ++ dumpStr e.name ++ lit ", \"score\": " ++ dumpNum e.score
    ++ lit ", \"timestamp\": " ++ dumpStr e.timestamp ++ [Char.ofNat 125]

/-- The comma-separated items of the array. -/
def dumpItems : Leaderboard → List Char
  | [] => []
  | [e] => dumpEntry e
  | e :: es => dumpEntry e ++ ',' :: ' ' :: dumpItems es

/-- The full JSON array. -/
def dumpArr : Leaderboard → List Char
  | [] => lit "[]"
  | l => '[' :: (dumpItems l ++ [']'])

/-- Model of `json.dumps(data)` as called by `write_storage`. -/
def dumpsLb (l : Leaderboard) : String := String.mk (dumpArr l)

/-- Prepend a character to the string half of a parser result. -/
def pMap (c : Char) : Option (List Char × List Char) → Option (List Char × List Char)
  | some (s, r) => some (c :: s, r)
  | none => none

/-- Parse a JSON string body up to and including the closing quote,
decoding the escapes `json.loads` accepts. -/
def pStrBody : List Char → Option (List Char × List Char)
  | [] => none
  | c :: cs =>
    if c = '"' then some ([], cs)
    else if c = '\\' then
      match cs with
      | [] => none
      | e :: cs2 =>
        if e = '"' then pMap '"' (pStrBody cs2)
        else if e = '\\' then pMap '\\' (pStrBody cs2)
        else if e = '/' then pMap '/' (pStrBody cs2)
        else if e = 'b' then pMap (Char.ofNat 8) (pStrBody cs2)
        else if e = 'f' then pMap (Char.ofNat 12) (pStrBody cs2)
        else if e = 'n' then pMap (Char.ofNat 10) (pStrBody cs2)
        else if e = 'r' then pMap (Char.ofNat 13) (pStrBody cs2)
        else if e = 't' then pMap (Char.ofNat 9) (pStrBody cs2)
        else if e = 'u' then
          match cs2 with
          | h1 :: h2 :: h3 :: h4 :: cs3 =>
            match hexVal h1, hexVal h2, hexVal h3, hexVal h4 with
            | some a, some b, some c3, some d =>
              pMap (Char.ofNat (4096 * a + 256 * b + 16 * c3 + d)) (pStrBody cs3)
            | _, _, _, _ => none
          | _ => none
        else none
    else pMap c (pStrBody cs)

/-- Parse a JSON string literal. -/
def pStr : List Char → Option (String × List Char)
  | [] => none
  | c :: cs =>
    if c = '"' then
      match pStrBody cs with
      | some (s, rest) => some (String.mk s, rest)
      | none => none
    else none

/-- Expect a fixed literal prefix. -/
def pLit : List Char → List Char → Option (List Char)
  | [], cs => some cs
  | _ :: _, [] => none
  | l :: ls, c :: cs => if c = l then pLit ls cs else none

/-- Split an optional leading `-` sign (JSON numbers allow no `+`). -/
def splitNeg : List Char → Bool × List Char
  | [] => (false, [])
  | c :: t => if c = '-' then (true, t) else (false, c :: t)

/-- Parse the unsigned part of a JSON number literal. -/
def pNumAux (neg : Bool) (cs1 : List Char) : Option (Decimal × List Char) :=
  let ip := cs1.takeWhile Char.isDigit
  let cs2 := cs1.dropWhile Char.isDigit
  if ip.isEmpty then none
  else
    match cs2 with
    | [] => some (⟨applySign neg (digitsVal ip), 0⟩, [])
    | c :: t =>
      if c = '.' then
        let fp := t.takeWhile Char.isDigit
        let cs3 := t.dropWhile Char.isDigit
        if fp.isEmpty then none
        else some (⟨applySign neg (digitsVal (ip ++ fp)), fp.length⟩, cs3)
      else some (⟨applySign neg (digitsVal ip), 0⟩, c :: t)

/-- Parse a JSON number literal into a `Decimal` (no exponent forms: the
printer above never emits them). -/
def pNum (cs : List Char) : Option (Decimal × List Char) :=
  let (neg, cs1) := splitNeg cs
  pNumAux neg cs1

/-- Parse one `ScoreEntry` object of the persisted schema. -/
def pEntry (cs : List Char) : Option (ScoreEntry × List Char) :=
  (pLit (lit "\x7b\"name\": ") cs).bind fun cs =>
  (pStr cs).bind fun (n, cs) =>
  (pLit (lit ", \"score\": ") cs).bind fun cs =>
  (pNum cs).bind fun (sc, cs) =>
  (pLit (lit ", \"timestamp\": ") cs).bind fun cs =>
  (pStr cs).bind fun (ts, cs) =>
  (pLit [Char.ofNat 125] cs).bind fun cs =>
  some (⟨n, sc, ts⟩, cs)

/-- Parse one or more comma-separated entries followed by `]`; `fuel` bounds
the recursion so that the definition is structural. -/
def pEntriesAux : ℕ → List Char → Option (Leaderboard × List Char)
  | 0, _ => none
  | fuel + 1, cs =>
    match pEntry cs with
    | none => none
    | some (e, rest) =>
      match rest with
      | [] => none
      | c :: t =>
        if c = ']' then some ([e], t)
        else if c = ',' then
          match t with
          | [] => none
          | c2 :: t2 =>
            if c2 = ' ' then
              match pEntriesAux fuel t2 with
              | none => none
              | some (es, r) => some (e :: es, r)
            else none
        else none

/-- Parse the JSON array of entries. -/
def pArr (cs : List Char) : Option (Leaderboard × List Char) :=
  match cs with
  | [] => none
  | c :: t =>
    if c = '[' then
      match t with
      | [] => none
      | c2 :: t2 =>
        if c2 = ']' then some (([] : Leaderboard), t2)
        else pEntriesAux t.length t
    else none

/-- Model of `json.loads` as called by `submit`, restricted to the persisted schema:
a complete JSON array of `{"name", "score", "timestamp"}` objects.  `none`
models the exception `json.loads` (or the subsequent `x["score"]` access)
raises on any other content. -/
def loadsLb (s : String) : Option Leaderboard :=
  match pArr s.data with
  | some (l, []) => some l
  | _ => none

/-! ### IEEE-754 binary64: model of the CPython floats used on line 32

`submit` computes `round(float(request.args["score"]), 1)` and compares the
result with `0` and `100000`.  CPython `float(s)` converts the decimal
string to the **nearest binary64 double** (ties to even, subnormals,
overflow to `±inf`), and `round(x, 1)` correctly rounds the **exact value
of that double** to one decimal digit (half to even) and converts the
resulting decimal back to the nearest double.  The model below implements
exactly that: a finite double is represented by its exact value
`m * 2 ^ s`. -/

/-- A CPython float: a finite binary64 value `m * 2 ^ s`, an infinity, or
`nan`.  (The model does not distinguish `-0.0` from `0.0`; the two are
`==`-equal in CPython and behave identically in every comparison `main.py`
performs.) -/
inductive PyFloat where
  | finite (m : ℤ) (s : ℤ)
  | inf
  | neginf
  | nan
deriving DecidableEq, Repr

/-- Unary negation of a float. -/
def PyFloat.negate : PyFloat → PyFloat
  | .finite m s => .finite (-m) s
  | .inf => .neginf
  | .neginf => .inf
  | .nan => .nan

/-- IEEE comparison `x <= y`: any comparison against `nan` is false. -/
def PyFloat.le : PyFloat → PyFloat → Bool
  | .nan, _ => false
  | _, .nan => false
  | .neginf, _ => true
  | _, .neginf => false
  | _, .inf => true
  | .inf, _ => false
  | .finite m1 s1, .finite m2 s2 =>
    decide (m1 * ((2 ^ (s1 - min s1 s2).toNat : ℕ) : ℤ)
      ≤ m2 * ((2 ^ (s2 - min s1 s2).toNat : ℕ) : ℤ))

/-- IEEE comparison `x < y`: any comparison against `nan` is false. -/
def PyFloat.lt : PyFloat → PyFloat → Bool
  | .nan, _ => false
  | _, .nan => false
  | .neginf, .neginf => false
  | .neginf, _ => true
  | _, .neginf => false
  | .inf, _ => false
  | .finite _ _, .inf => true
  | .finite m1 s1, .finite m2 s2 =>
    decide (m1 * ((2 ^ (s1 - min s1 s2).toNat : ℕ) : ℤ)
      < m2 * ((2 ^ (s2 - min s1 s2).toNat : ℕ) : ℤ))

/-- The float `0` (the literal `0` of `score <= 0`). -/
def pyZero : PyFloat := .finite 0 0

/-- The float `100000` (the literal of `score > 100000`; exactly
representable). -/
def pyHundredK : PyFloat := .finite 100000 0

/-- Round `n / d` (`d > 0`) to the nearest integer, ties to even.  `/` and
`%` on `ℤ` are Euclidean, so `q` is the floor and `r ∈ [0, d)`. -/
def rheDiv (n d : ℤ) : ℤ :=
  let q := n / d
  let r := n % d
  if 2 * r < d then q else if 2 * r > d then q + 1 else if q % 2 = 0 then q else q + 1

/-- Floor of `log2 n` (`fuel`-structured so that it reduces in the
kernel). -/
def natLog2Aux : ℕ → ℕ → ℕ
  | 0, _ => 0
  | fuel + 1, n => if 2 ≤ n then natLog2Aux fuel (n / 2) + 1 else 0

/-- Floor of `log2 n` for `n ≥ 1`. -/
def natLog2 (n : ℕ) : ℕ := natLog2Aux n n

/-- Decide `2 ^ e ≤ n / d` by cross multiplication. -/
def le2pow (e : ℤ) (n d : ℕ) : Bool :=
  if 0 ≤ e then decide (d * 2 ^ e.toNat ≤ n) else decide (d ≤ n * 2 ^ (-e).toNat)

/-- Floor of `log2 (n / d)` for `n, d ≥ 1`: the estimate from the integer
logarithms is off by at most one and is fixed up with one comparison. -/
def ilog2Frac (n d : ℕ) : ℤ :=
  let e0 : ℤ := (natLog2 n : ℤ) - (natLog2 d : ℤ)
  if le2pow e0 n d then e0 else e0 - 1

/-- Numerator of the exact fraction `D * 10 ^ E`. -/
def ndNum (D : ℕ) (E : ℤ) : ℕ := if 0 ≤ E then D * 10 ^ E.toNat else D

/-- Denominator of the exact fraction `D * 10 ^ E`. -/
def ndDen (E : ℤ) : ℕ := if 0 ≤ E then 1 else 10 ^ (-E).toNat

/-- The binary64 scale for `D * 10 ^ E`: 52 bits below the leading bit, but
never below the subnormal scale `2 ^ -1074`. -/
def ndScale (D : ℕ) (E : ℤ) : ℤ := max (ilog2Frac (ndNum D E) (ndDen E) - 52) (-1074)

/-- The significand of `D * 10 ^ E` at scale `ndScale`, rounded to the
nearest integer with ties to even. -/
def ndMant (D : ℕ) (E : ℤ) : ℤ :=
  if 0 ≤ ndScale D E then
    rheDiv (ndNum D E : ℤ) ((ndDen E * 2 ^ (ndScale D E).toNat : ℕ) : ℤ)
  else rheDiv ((ndNum D E * 2 ^ (-ndScale D E).toNat : ℕ) : ℤ) (ndDen E : ℤ)

/-- Correctly rounded conversion of the nonnegative decimal `D * 10 ^ E` to
binary64: the significand is rounded to 53 bits (ties to even), subnormals
use the fixed scale `2 ^ -1074`, and a result of magnitude `2 ^ 1024` or
more overflows to infinity. -/
def nearestDouble (D : ℕ) (E : ℤ) : PyFloat :=
  if 1024 ≤ (natLog2 (ndMant D E).toNat : ℤ) + ndScale D E then .inf
  else .finite (ndMant D E) (ndScale D E)

/-- `nearestDouble` behind cheap guards that settle decimals whose exponent
alone forces the result (certain underflow to `0.0`, certain overflow to
infinity) without building the huge powers of ten. -/
def floatOfDecCore (D : ℕ) (E : ℤ) : PyFloat :=
  if E + ((natChars D).length : ℤ) ≤ -324 then .finite 0 0
  else if 309 ≤ E then .inf
  else nearestDouble D E

/-- The double nearest the signed decimal `k * 10 ^ E`. -/
def doubleOfDec (k : ℤ) (E : ℤ) : PyFloat :=
  if k = 0 then .finite 0 0
  else if k < 0 then (floatOfDecCore k.natAbs E).negate
  else floatOfDecCore k.natAbs E

/-- Round the exact value `m * 2 ^ s * 10` to the nearest integer, ties to
even: the tenths mantissa CPython `round(x, 1)` produces for the double
`m * 2 ^ s`. -/
def rheTimes10 (m s : ℤ) : ℤ :=
  if 0 ≤ s then m * 10 * ((2 ^ s.toNat : ℕ) : ℤ)
  else rheDiv (m * 10) ((2 ^ (-s).toNat : ℕ) : ℤ)

/-- Model of CPython `round(x, 1)`: for a finite double, correctly round
its exact value to one decimal digit (half to even, via `rheTimes10`) and
convert that decimal back to the nearest double; infinities and `nan` are
returned unchanged. -/
def pyRound1 : PyFloat → PyFloat
  | .finite m s => doubleOfDec (rheTimes10 m s) (-1)
  | f => f

/-- The tenths mantissa of `round(f, 1)` for a finite `f` (so `round(f, 1)`
is the double nearest `k / 10` where `roundMant f = some k`); `none` on
infinities and `nan`. -/
def roundMant : PyFloat → Option ℤ
  | .finite m s => some (rheTimes10 m s)
  | _ => none

/-- ASCII whitespace stripped by `float(s)` (space, tab, newline, vertical
tab, form feed, carriage return).  Note `?score=+5` reaches the handler as
`" 5"`: `+` decodes to a space in a query string. -/
def isPySpace (c : Char) : Bool :=
  c = ' ' || c = Char.ofNat 9 || c = Char.ofNat 10 || c = Char.ofNat 11 ||
  c = Char.ofNat 12 || c = Char.ofNat 13

/-- Case-insensitive literal match (for `inf` / `infinity` / `nan`). -/
def matchCI : List Char → List Char → Option (List Char)
  | [], cs => some cs
  | _ :: _, [] => none
  | l :: ls, c :: cs => if c.toLower = l then matchCI ls cs else none

/-- Scan a digit run that may contain underscores, each of which must sit
between two digits (CPython's underscore rule); returns the digits with
underscores removed, and the rest. -/
def digRunAux : ℕ → List Char → (List Char × List Char)
  | 0, cs => ([], cs)
  | fuel + 1, cs =>
    match cs with
    | [] => ([], [])
    | c :: t =>
      if c.isDigit then
        let (ds, r) := digRunAux fuel t
        (c :: ds, r)
      else if c = '_' then
        match t with
        | t1 :: _ => if t1.isDigit then digRunAux fuel t else ([], cs)
        | [] => ([], cs)
      else ([], cs)

/-- A digit run must begin with a digit (never with an underscore). -/
def digRun (cs : List Char) : List Char × List Char :=
  match cs with
  | c :: _ => if c.isDigit then digRunAux cs.length cs else ([], cs)
  | [] => ([], [])

/-- The signed infinity. -/
def signedInf (neg : Bool) : PyFloat := if neg then .neginf else .inf

/-- The double nearest `± D * 10 ^ E`. -/
def floatOfDecSigned (neg : Bool) (D : ℕ) (E : ℤ) : PyFloat :=
  doubleOfDec (if neg then -(D : ℤ) else (D : ℤ)) E

/-- Model of the CPython builtin `float(s)` as called on
`request.args["score"]`: strip surrounding whitespace, then an optional
sign followed by `inf`/`infinity`/`nan` (case-insensitive) or a decimal
literal `digits [. digits] [(e|E) [sign] digits]` with underscores allowed
between digits, converted to the nearest binary64 double.  `none` models
`float` raising `ValueError`.  Scope: ASCII strings (CPython additionally
maps non-ASCII decimal digits and Unicode whitespace before parsing; the
claims below restrict their parse-failure conditions to ASCII input). -/
def pyFloatOfString (str : String) : Option PyFloat :=
  let cs := ((str.data.dropWhile isPySpace).reverse.dropWhile isPySpace).reverse
  let (neg, cs1) := splitSign cs
  match matchCI (lit "infinity") cs1 with
  | some [] => some (signedInf neg)
  | _ =>
  match matchCI (lit "inf") cs1 with
  | some [] => some (signedInf neg)
  | _ =>
  match matchCI (lit "nan") cs1 with
  | some [] => some .nan
  | _ =>
    let (ip, cs2) := digRun cs1
    let pr : Option (List Char × List Char) :=
      match cs2 with
      | c :: t => if c = '.' then some (digRun t) else none
      | [] => none
    let fp := match pr with | some (f, _) => f | none => []
    let cs3 := match pr with | some (_, r) => r | none => cs2
    if ip.isEmpty && fp.isEmpty then none
    else
      let D := digitsVal (ip ++ fp)
      let E0 : ℤ := -(fp.length : ℤ)
      match cs3 with
      | [] => some (floatOfDecSigned neg D E0)
      | c :: t =>
        if c = 'e' || c = 'E' then
          let (eneg, t2) := splitSign t
          let (ed, r) := digRun t2
          if ed.isEmpty || !r.isEmpty then none
          else
            let ev : ℤ := if eneg then -(digitsVal ed : ℤ) else (digitsVal ed : ℤ)
            some (floatOfDecSigned neg D (ev + E0))
        else none

/-! ### The HTTP service -/

instance {ε α : Type} [DecidableEq ε] [DecidableEq α] : DecidableEq (Except ε α)
  | .error e, .error f => decidable_of_iff (e = f) (by simp)
  | .error _, .ok _ => isFalse (by simp)
  | .ok _, .error _ => isFalse (by simp)
  | .ok a, .ok b => decidable_of_iff (a = b) (by simp)

/-- The parts of the incoming Flask request that `main.py` reads.  `args`
holds the URL query-string parameters (`request.args`, first value wins for
a repeated key); `form` holds the form-encoded body parameters
(`request.form`), which the handler never reads. -/
structure Request where
  path : String
  method : String
  args : List (String × String)
  form : List (String × String)
deriving DecidableEq, Repr

/-- A response body: either a plain string or a JSON-encoded list (the
functions-framework turns a returned Python list into a JSON body). -/
inductive Body where
  | text (s : String)
  | json (lb : Leaderboard)
deriving DecidableEq, Repr

/-- A `(body, status, headers)` response tuple. -/
structure Response where
  body : Body
  status : ℕ
  headers : List (String × String)
deriving DecidableEq, Repr

/-- The module-level `headers` constant. -/
def headers : List (String × String) := [("Access-Control-Allow-Origin", "*")]

/-- The uniform `"Bad request", 400, headers` tuple. -/
def badRequest : Response := ⟨.text "Bad request", 400, headers⟩

/-- The blob `asteroids-highscores/highscores.json` together with the
failure behaviour of the storage service on this request: `content` is what
a download returns (`.error` models the blob client raising), and `writeOk`
says whether an upload succeeds. -/
structure Storage where
  content : Except Unit String
  writeOk : Bool
deriving DecidableEq, Repr

/-- Gateway read `read_storage`: `blob.download_as_text()`. -/
def read_storage (st : Storage) : Except Unit String := st.content

/-- Gateway write `write_storage`: `blob.upload_from_string(json.dumps(data))` (the
`json.dumps` is applied by the caller in this embedding). -/
def write_storage (st : Storage) (text : String) : Except Unit Storage :=
  if st.writeOk then .ok { st with content := .ok text } else .error ()

/-- Handler `list_highscores`: return the raw persisted text with status 200; a
read failure propagates. -/
def list_highscores (st : Storage) : Except Unit (Response × Storage) :=
  match read_storage st with
  | .error e => .error e
  | .ok data => .ok (⟨.text data, 200, headers⟩, st)

/-- The `try` block of `submit`: look up `name`, check its length, parse
`score` to a double, round it to one decimal, check
`score <= 0 or score > 100000` with IEEE comparisons.  `none` means some
step raised and the bare `except` returns the 400 response.  An accepted
score is round(float(s), 1), the double nearest `k / 10` with
`k = rheTimes10 m sc`; the decimal `⟨k, 1⟩` is exactly what `json.dumps`
later prints for it (`repr` of such a double is the shortest decimal that
rounds to it, which for `0 < k ≤ 10 ^ 6` is `k / 10` itself).  Model
scope: a score parsing to `nan` passes CPython's range test (both
comparisons are false) and is accepted with a NaN score — an incomparable
sort key serialized as the non-JSON literal `NaN`; that floating-point
pathology is outside this model, which maps it to the rejection branch,
and no theorem below asserts anything about a `nan` submission. -/
def validate (req : Request) : Option (String × Decimal) :=
  match req.args.lookup "name" with
  | none => none
  | some name =>
    if name.length = 0 ∨ name.length > 20 then none
    else
      match req.args.lookup "score" with
      | none => none
      | some s =>
        match pyFloatOfString s with
        | none => none
        | some f =>
          let score := pyRound1 f
          if score.le pyZero || pyHundredK.lt score then none
          else
            match f with
            | .finite m sc => some (name, ⟨rheTimes10 m sc, 1⟩)
            | _ => none

/-- Lines 41–42 of `main.py`: insert the new entry at position 0, re-sort
by descending score (Python's `sorted` is stable; `insertionSort` is the
stable sort of the Mathlib library) and keep the first 10. -/
def updateBoard (entry : ScoreEntry) (data : Leaderboard) : Leaderboard :=
  (List.insertionSort entryGE (entry :: data)).take 10

/-- The `submit` handler. -/
def submit (req : Request) (now : String) (st : Storage) : Except Unit (Response × Storage) :=
  match validate req with
  | none => .ok (badRequest, st)
  | some (name, score) =>
    match read_storage st with
    | .error e => .error e
    | .ok text =>
      match loadsLb text with
      | none => .error ()
      | some data =>
        let newData := updateBoard ⟨name, score, now⟩ data
        match write_storage st (dumpsLb newData) with
        | .error e => .error e
        | .ok st2 => .ok (⟨.json newData, 200, headers⟩, st2)

/-- The request router `main`. -/
def main (req : Request) (now : String) (st : Storage) : Except Unit (Response × Storage) :=
  if req.path = "/" then list_highscores st
  else if req.path = "/submit" ∧ req.method = "POST" then submit req now st
  else .ok (badRequest, st)

/-! ### Digit strings: the printer and the reader invert each other -/

theorem foldl_digits (l : List Char) (a : ℕ) :
    l.foldl (fun a c => 10 * a + (c.toNat - 48)) a = a * 10 ^ l.length + digitsVal l := by
  induction l generalizing a with
  | nil => simp [digitsVal]
  | cons c t ih =>
    have h1 : digitsVal (c :: t) = (c.toNat - 48) * 10 ^ t.length + digitsVal t := by
      unfold digitsVal
      rw [List.foldl_cons, ih]
      simp [digitsVal]
    rw [List.foldl_cons, ih, h1, List.length_cons]
    ring

theorem digitsVal_append (l1 l2 : List Char) :
    digitsVal (l1 ++ l2) = digitsVal l1 * 10 ^ l2.length + digitsVal l2 := by
  rw [digitsVal, List.foldl_append]
  exact foldl_digits l2 (digitsVal l1)

theorem digitChar_toNat {d : ℕ} (h : d < 10) : (digitChar d).toNat = 48 + d := by
  interval_cases d <;> decide

theorem digitChar_isDigit {d : ℕ} (h : d < 10) : (digitChar d).isDigit = true := by
  interval_cases d <;> decide

theorem natCharsAux_isDigit (fuel : ℕ) : ∀ n, ∀ c ∈ natCharsAux fuel n, c.isDigit = true := by
  induction fuel with
  | zero => intro n c hc; simp [natCharsAux] at hc
  | succ f ih =>
    intro n c hc
    simp only [natCharsAux] at hc
    by_cases h : n = 0
    · simp [h] at hc
    · rw [if_neg h] at hc
      rcases List.mem_append.mp hc with h1 | h1
      · exact ih _ c h1
      · rcases List.mem_singleton.mp h1 with rfl
        exact digitChar_isDigit (Nat.mod_lt _ (by norm_num))

theorem natCharsAux_val (fuel : ℕ) : ∀ n, n ≤ fuel → digitsVal (natCharsAux fuel n) = n := by
  induction fuel with
  | zero => intro n h; interval_cases n; simp [natCharsAux, digitsVal]
  | succ f ih =>
    intro n h
    by_cases h0 : n = 0
    · simp [natCharsAux, h0, digitsVal]
    · have hd : digitsVal [digitChar (n % 10)] = n % 10 := by
        unfold digitsVal
        simp [digitChar_toNat (Nat.mod_lt n (by norm_num))]
      rw [natCharsAux, if_neg h0, digitsVal_append, ih (n / 10) (by omega), hd]
      simp only [List.length_singleton, pow_one]
      omega

theorem natChars_val (n : ℕ) : digitsVal (natChars n) = n := by
  by_cases h : n = 0
  · subst h; decide
  · rw [natChars, if_neg h]; exact natCharsAux_val n n le_rfl

theorem natChars_isDigit (n : ℕ) : ∀ c ∈ natChars n, c.isDigit = true := by
  intro c hc
  rw [natChars] at hc
  split at hc
  · rcases List.mem_singleton.mp hc with rfl; decide
  · exact natCharsAux_isDigit n n c hc

theorem natChars_ne_nil (n : ℕ) : natChars n ≠ [] := by
  rw [natChars]
  split
  · simp
  · rename_i h
    cases n with
    | zero => exact absurd rfl h
    | succ f =>
      rw [natCharsAux, if_neg h]
      simp

theorem digitsVal_replicate_zero (m : ℕ) : digitsVal (List.replicate m '0') = 0 := by
  induction m with
  | zero => rfl
  | succ i ih =>
    have h : 10 * 0 + ('0'.toNat - 48) = 0 := by decide
    rw [digitsVal, List.replicate_succ, List.foldl_cons, h]
    exact ih

theorem padTo_val (k : ℕ) (l : List Char) : digitsVal (padTo k l) = digitsVal l := by
  unfold padTo
  split
  · rw [digitsVal_append, digitsVal_replicate_zero]
    simp
  · rfl

theorem padTo_isDigit {l : List Char} (hl : ∀ c ∈ l, c.isDigit = true) (k : ℕ) :
    ∀ c ∈ padTo k l, c.isDigit = true := by
  intro c hc
  unfold padTo at hc
  split at hc
  · rcases List.mem_append.mp hc with h1 | h1
    · rcases List.eq_of_mem_replicate h1 with rfl; decide
    · exact hl c h1
  · exact hl c hc

theorem padTo_length (k : ℕ) (l : List Char) : (padTo k l).length = max k l.length := by
  unfold padTo
  split <;> simp <;> omega

/-! ### `takeWhile`/`dropWhile` over a digit run -/

theorem takeWhile_all_append {p : Char → Bool} (l : List Char) :
    ∀ rest : List Char, (∀ c ∈ l, p c = true) → (∀ c, rest.head? = some c → p c = false) →
      (l ++ rest).takeWhile p = l ∧ (l ++ rest).dropWhile p = rest := by
  induction l with
  | nil =>
    intro rest h1 h2
    refine ⟨?_, ?_⟩ <;>
      · cases rest with
        | nil => rfl
        | cons r t => simp [List.takeWhile_cons, List.dropWhile_cons, h2 r rfl]
  | cons c l ih =>
    intro rest h1 h2
    have hc : p c = true := h1 c (List.mem_cons_self _ _)
    have hi := ih rest (fun d hd => h1 d (List.mem_cons_of_mem _ hd)) h2
    refine ⟨?_, ?_⟩
    · simp [List.takeWhile_cons, hc, hi.1]
    · simp [List.dropWhile_cons, hc, hi.2]

theorem digit_ne {c d : Char} (h : c.isDigit = true) (hd : d.isDigit = false) : c ≠ d := by
  intro e
  rw [e, hd] at h
  cases h

theorem head_of_all {l : List Char} (rest : List Char) {p : Char → Bool}
    (hne : l ≠ []) (hall : ∀ c ∈ l, p c = true) :
    ∀ c, (l ++ rest).head? = some c → p c = true := by
  cases l with
  | nil => exact absurd rfl hne
  | cons a t =>
    intro c hc
    cases hc
    exact hall a (List.mem_cons_self _ _)

theorem splitNeg_no_dash {l : List Char} (h : ∀ c, l.head? = some c → c ≠ '-') :
    splitNeg l = (false, l) := by
  cases l with
  | nil => rfl
  | cons c t => simp [splitNeg, h c rfl]

theorem splitNeg_dash (l : List Char) : splitNeg ('-' :: l) = (true, l) := by
  simp [splitNeg]

theorem isEmpty_false {l : List Char} (h : l ≠ []) : l.isEmpty = false := by
  cases l with
  | nil => exact absurd rfl h
  | cons a t => rfl

/-! ### Number literals round-trip -/

theorem pNumAux_body (d : Decimal) (neg : Bool) (rest : List Char)
    (hrest : ∀ c, rest.head? = some c → c.isDigit = false ∧ c ≠ '.') :
    pNumAux neg (dumpNumBody d ++ rest) = some (⟨applySign neg d.mant.natAbs, d.exp⟩, rest) := by
  by_cases hexp : d.exp = 0
  · have hall := natChars_isDigit d.mant.natAbs
    have hne := natChars_ne_nil d.mant.natAbs
    obtain ⟨htake, hdrop⟩ :=
      takeWhile_all_append (natChars d.mant.natAbs) rest hall (fun c hc => (hrest c hc).1)
    rw [dumpNumBody, if_pos hexp]
    rw [pNumAux]
    simp only [htake, hdrop, isEmpty_false hne]
    cases rest with
    | nil => simp [natChars_val, hexp]
    | cons r t =>
      have hr := hrest r rfl
      simp [hr.2, natChars_val, hexp]
  · have hdig := padTo_isDigit (natChars_isDigit d.mant.natAbs) (d.exp + 1)
    have hval : digitsVal (padTo (d.exp + 1) (natChars d.mant.natAbs)) = d.mant.natAbs :=
      (padTo_val _ _).trans (natChars_val _)
    have hlen : d.exp + 1 ≤ (padTo (d.exp + 1) (natChars d.mant.natAbs)).length := by
      rw [padTo_length]; omega
    set ds := padTo (d.exp + 1) (natChars d.mant.natAbs) with hds
    set tp := ds.take (ds.length - d.exp) with htp
    set dp := ds.drop (ds.length - d.exp) with hdp
    have htplen : tp.length = ds.length - d.exp := by
      rw [htp, List.length_take]; omega
    have hdplen : dp.length = d.exp := by
      rw [hdp, List.length_drop]; omega
    have htpdig : ∀ c ∈ tp, c.isDigit = true :=
      fun c hc => hdig c (List.take_subset _ _ hc)
    have hdpdig : ∀ c ∈ dp, c.isDigit = true :=
      fun c hc => hdig c (List.drop_subset _ _ hc)
    have htpne : tp ≠ [] := by
      refine List.ne_nil_of_length_pos ?_
      omega
    have hdpne : dp ≠ [] := by
      refine List.ne_nil_of_length_pos ?_
      omega
    have hbody : dumpNumBody d ++ rest = tp ++ ('.' :: (dp ++ rest)) := by
      rw [dumpNumBody, if_neg hexp]
      simp only [← hds, ← htp, ← hdp, List.append_assoc, List.cons_append]
    obtain ⟨htake1, hdrop1⟩ :=
      takeWhile_all_append tp ('.' :: (dp ++ rest)) htpdig (by intro c hc; cases hc; decide)
    obtain ⟨htake2, hdrop2⟩ :=
      takeWhile_all_append dp rest hdpdig (fun c hc => (hrest c hc).1)
    rw [hbody, pNumAux]
    simp only [htake1, hdrop1, isEmpty_false htpne, isEmpty_false hdpne, htake2, hdrop2]
    have htpdp : tp ++ dp = ds := by
      rw [htp, hdp, List.take_append_drop]
    simp [htpdp, hval, hdplen]

theorem dumpNumBody_head_digit (d : Decimal) (rest : List Char) :
    ∀ c, (dumpNumBody d ++ rest).head? = some c → c.isDigit = true := by
  by_cases hexp : d.exp = 0
  · rw [dumpNumBody, if_pos hexp]
    exact head_of_all rest (natChars_ne_nil _) (natChars_isDigit _)
  · have hdig := padTo_isDigit (natChars_isDigit d.mant.natAbs) (d.exp + 1)
    have hlen : d.exp + 1 ≤ (padTo (d.exp + 1) (natChars d.mant.natAbs)).length := by
      rw [padTo_length]; omega
    set ds := padTo (d.exp + 1) (natChars d.mant.natAbs) with hds
    set tp := ds.take (ds.length - d.exp) with htp
    have htplen : tp.length = ds.length - d.exp := by
      rw [htp, List.length_take]; omega
    have htpdig : ∀ c ∈ tp, c.isDigit = true :=
      fun c hc => hdig c (List.take_subset _ _ hc)
    have htpne : tp ≠ [] := by
      refine List.ne_nil_of_length_pos ?_
      omega
    have hbody : dumpNumBody d ++ rest = tp ++ ('.' :: (ds.drop (ds.length - d.exp) ++ rest)) := by
      rw [dumpNumBody, if_neg hexp]
      simp only [← hds, ← htp, List.append_assoc, List.cons_append]
    rw [hbody]
    exact head_of_all _ htpne htpdig

theorem pNum_dump (d : Decimal) (rest : List Char)
    (hrest : ∀ c, rest.head? = some c → c.isDigit = false ∧ c ≠ '.') :
    pNum (dumpNum d ++ rest) = some (d, rest) := by
  by_cases hm : d.mant < 0
  · have hcons : dumpNum d ++ rest = '-' :: (dumpNumBody d ++ rest) := by
      simp [dumpNum, if_pos hm]
    have hsign : applySign true d.mant.natAbs = d.mant := by
      have habs : (d.mant.natAbs : ℤ) = -d.mant := by omega
      simp [applySign, habs]
    rw [hcons, pNum, splitNeg_dash]
    dsimp only
    rw [pNumAux_body d true rest hrest, hsign]
  · have hcons : dumpNum d ++ rest = dumpNumBody d ++ rest := by
      simp [dumpNum, if_neg hm]
    have hsign : applySign false d.mant.natAbs = d.mant := by
      have habs : (d.mant.natAbs : ℤ) = d.mant := by omega
      simp [applySign, habs]
    have hnod : ∀ c, (dumpNumBody d ++ rest).head? = some c → c ≠ '-' :=
      fun c hc => digit_ne (dumpNumBody_head_digit d rest c hc) (by decide)
    rw [hcons, pNum, splitNeg_no_dash hnod]
    dsimp only
    rw [pNumAux_body d false rest hrest, hsign]

/-! ### String literals round-trip -/

theorem hexVal_hexDig {n : ℕ} (h : n < 16) : hexVal (hexDig n) = some n := by
  interval_cases n <;> decide

theorem pStrBody_quote (cs : List Char) : pStrBody ('"' :: cs) = some ([], cs) := by
  rw [pStrBody.eq_def]
  simp

theorem pStrBody_esc (c : Char) (cs : List Char) :
    pStrBody (escChar c ++ cs) = pMap c (pStrBody cs) := by
  unfold escChar
  split_ifs with h1 h2 h3 h4 h5 h6 h7 h8
  · subst h1; rw [pStrBody.eq_def]; simp
  · subst h2; rw [pStrBody.eq_def]; simp
  · subst h3; rw [pStrBody.eq_def]; simp
  · subst h4; rw [pStrBody.eq_def]; simp
  · subst h5; rw [pStrBody.eq_def]; simp
  · subst h6; rw [pStrBody.eq_def]; simp
  · subst h7; rw [pStrBody.eq_def]; simp
  · have hq : c.toNat / 16 < 16 := by omega
    have hr : c.toNat % 16 < 16 := by omega
    have h16 : 16 * (c.toNat / 16) + c.toNat % 16 = c.toNat := by omega
    rw [pStrBody.eq_def]
    simp only [List.cons_append, List.nil_append]
    simp [hexVal_hexDig hq, hexVal_hexDig hr, show hexVal '0' = some 0 from by decide,
      h16, Char.ofNat_toNat]
  · rw [show ([c] ++ cs) = c :: cs from rfl, pStrBody.eq_def]
    simp [h1, h2]

theorem escStr_parse (l : List Char) (cs : List Char) :
    pStrBody (escStr l ++ '"' :: cs) = some (l, cs) := by
  induction l with
  | nil => exact pStrBody_quote cs
  | cons c t ih =>
    have hesc : escStr (c :: t) = escChar c ++ escStr t := rfl
    rw [hesc, List.append_assoc, pStrBody_esc, ih]
    rfl

theorem pStr_dump (s : String) (cs : List Char) :
    pStr (dumpStr s ++ cs) = some (s, cs) := by
  rw [dumpStr]
  simp only [List.cons_append, List.append_assoc, List.singleton_append]
  rw [pStr.eq_def]
  simp only [if_pos rfl]
  rw [escStr_parse]
  simp

theorem pLit_self (l : List Char) : ∀ cs, pLit l (l ++ cs) = some cs := by
  induction l with
  | nil => intro cs; rfl
  | cons c t ih => intro cs; simp [pLit, ih]

/-! ### Entries and the array round-trip -/

theorem pEntry_dump (e : ScoreEntry) (cs : List Char) :
    pEntry (dumpEntry e ++ cs) = some (e, cs) := by
  have hnum : ∀ X : List Char, ∀ c, (lit ", \"timestamp\": " ++ X).head? = some c →
      c.isDigit = false ∧ c ≠ '.' := by
    intro X c hc
    have hh : (lit ", \"timestamp\": " ++ X).head? = some ',' := rfl
    rw [hh] at hc
    cases hc
    exact ⟨by decide, by decide⟩
  rw [dumpEntry, pEntry]
  simp only [List.append_assoc]
  rw [pLit_self, Option.some_bind, pStr_dump, Option.some_bind, pLit_self, Option.some_bind,
    pNum_dump _ _ (hnum _), Option.some_bind, pLit_self, Option.some_bind, pStr_dump,
    Option.some_bind, pLit_self, Option.some_bind]

theorem dumpEntry_head (e : ScoreEntry) : ∃ t, dumpEntry e = Char.ofNat 123 :: t :=
  ⟨_, rfl⟩

theorem dumpItems_head (e : ScoreEntry) (es : Leaderboard) :
    ∃ t, dumpItems (e :: es) = Char.ofNat 123 :: t := by
  cases es with
  | nil => exact dumpEntry_head e
  | cons f fs =>
    obtain ⟨t, ht⟩ := dumpEntry_head e
    refine ⟨t ++ ',' :: ' ' :: dumpItems (f :: fs), ?_⟩
    rw [show dumpItems (e :: f :: fs) = dumpEntry e ++ ',' :: ' ' :: dumpItems (f :: fs) from rfl,
      ht]
    simp

theorem dumpItems_length_ge (l : Leaderboard) : l.length ≤ (dumpItems l).length := by
  induction l with
  | nil => simp
  | cons e es ih =>
    obtain ⟨t, ht⟩ := dumpEntry_head e
    cases es with
    | nil => rw [show dumpItems [e] = dumpEntry e from rfl, ht]; simp
    | cons f fs =>
      rw [show dumpItems (e :: f :: fs) = dumpEntry e ++ ',' :: ' ' :: dumpItems (f :: fs) from rfl,
        ht]
      simp at ih ⊢
      omega

theorem pEntriesAux_dump (l : Leaderboard) :
    ∀ (cs : List Char) (fuel : ℕ), l ≠ [] → l.length ≤ fuel →
      pEntriesAux fuel (dumpItems l ++ ']' :: cs) = some (l, cs) := by
  induction l with
  | nil => intro cs fuel h _; exact absurd rfl h
  | cons e es ih =>
    intro cs fuel _ hfuel
    cases fuel with
    | zero => simp at hfuel
    | succ f =>
      cases es with
      | nil =>
        rw [show dumpItems [e] = dumpEntry e from rfl, pEntriesAux, pEntry_dump]
        simp
      | cons e2 es2 =>
        have hshape : dumpItems (e :: e2 :: es2) ++ ']' :: cs
            = dumpEntry e ++ (',' :: ' ' :: (dumpItems (e2 :: es2) ++ ']' :: cs)) := by
          rw [show dumpItems (e :: e2 :: es2)
              = dumpEntry e ++ ',' :: ' ' :: dumpItems (e2 :: es2) from rfl]
          simp
        have hrec := ih cs f (by simp) (by simp at hfuel ⊢; omega)
        rw [hshape, pEntriesAux, pEntry_dump]
        simp [hrec]

theorem loads_dumps (l : Leaderboard) : loadsLb (dumpsLb l) = some l := by
  cases l with
  | nil => decide
  | cons e es =>
    rw [loadsLb, dumpsLb]
    have hdata : (String.mk (dumpArr (e :: es))).data = dumpArr (e :: es) := rfl
    rw [hdata]
    have harr : dumpArr (e :: es) = '[' :: (dumpItems (e :: es) ++ [']']) := rfl
    obtain ⟨t, ht⟩ := dumpItems_head e es
    have hfuel : (e :: es).length ≤ (dumpItems (e :: es) ++ [']']).length := by
      have := dumpItems_length_ge (e :: es)
      simp at this ⊢
      omega
    have hmain := pEntriesAux_dump (e :: es) [] (dumpItems (e :: es) ++ [']']).length
      (by simp) hfuel
    rw [harr, pArr.eq_def]
    dsimp only
    rw [if_pos rfl, ht]
    simp only [List.cons_append]
    rw [if_neg (by decide)]
    have hts : Char.ofNat 123 :: (t ++ [']']) = dumpItems (e :: es) ++ [']'] := by
      rw [ht]
      simp
    rw [hts]
    rw [show (']' :: ([] : List Char)) = [']'] from rfl] at hmain
    rw [hmain]

/-! ### The sort: order, permutation, and stability -/

theorem filter_orderedInsert_of_pos {p : ScoreEntry → Bool} {a : ScoreEntry}
    (hp : p a = true) (hcompat : ∀ b, ¬ entryGE a b → p b = false) (l : Leaderboard) :
    (List.orderedInsert entryGE a l).filter p = a :: l.filter p := by
  induction l with
  | nil => simp [List.orderedInsert, hp]
  | cons b l ih =>
    rw [List.orderedInsert]
    by_cases h : entryGE a b
    · rw [if_pos h, List.filter_cons, if_pos hp]
    · rw [if_neg h, List.filter_cons, hcompat b h]
      simp only [Bool.false_eq_true, if_false, ih]
      rw [List.filter_cons, hcompat b h]
      simp

theorem filter_orderedInsert_of_neg {p : ScoreEntry → Bool} {a : ScoreEntry}
    (hp : p a = false) (l : Leaderboard) :
    (List.orderedInsert entryGE a l).filter p = l.filter p := by
  induction l with
  | nil => simp [List.orderedInsert, hp]
  | cons b l ih =>
    rw [List.orderedInsert]
    by_cases h : entryGE a b
    · rw [if_pos h, List.filter_cons, hp]
      simp
    · rw [if_neg h, List.filter_cons, ih, ← List.filter_cons]

/-- Stability of the sort, characterized through filtering: the entries of
any fixed score appear in the sorted list exactly as they appeared in the
input. -/
theorem filter_insertionSort_score (q : ℚ) (l : Leaderboard) :
    (List.insertionSort entryGE l).filter (fun e => decide (e.score.toRat = q))
      = l.filter (fun e => decide (e.score.toRat = q)) := by
  induction l with
  | nil => rfl
  | cons a l ih =>
    rw [List.insertionSort]
    by_cases hp : a.score.toRat = q
    · rw [filter_orderedInsert_of_pos (by simp [hp]) ?compat, ih, List.filter_cons,
        if_pos (by simp [hp])]
      case compat =>
        intro b hb
        have : a.score.toRat < b.score.toRat := by
          rw [entryGE, Decimal.le_iff_toRat] at hb
          exact lt_of_not_le hb
        simp only [decide_eq_false_iff_not]
        rw [← hp]
        exact ne_of_gt this
    · rw [filter_orderedInsert_of_neg (by simp [hp]), ih, List.filter_cons,
        if_neg (by simp [hp])]

theorem updateBoard_length (e : ScoreEntry) (d : Leaderboard) :
    (updateBoard e d).length = min (d.length + 1) 10 := by
  rw [updateBoard, List.length_take, List.length_insertionSort]
  simp [Nat.min_comm]

theorem updateBoard_sorted (e : ScoreEntry) (d : Leaderboard) :
    (updateBoard e d).Sorted entryGE :=
  List.Pairwise.sublist (List.take_sublist _ _) (List.sorted_insertionSort entryGE _)

theorem updateBoard_sorted_toRat (e : ScoreEntry) (d : Leaderboard) :
    (updateBoard e d).Sorted (fun a b => b.score.toRat ≤ a.score.toRat) :=
  (updateBoard_sorted e d).imp (fun h => Decimal.le_iff_toRat.mp h)

theorem updateBoard_subperm (e : ScoreEntry) (d : Leaderboard) :
    (updateBoard e d).Subperm (e :: d) :=
  ((List.take_sublist _ _).subperm).trans (List.perm_insertionSort entryGE _).subperm

theorem updateBoard_perm_of_lt {e : ScoreEntry} {d : Leaderboard} (h : d.length < 10) :
    (updateBoard e d).Perm (e :: d) := by
  rw [updateBoard, List.take_of_length_le]
  · exact List.perm_insertionSort entryGE _
  · rw [List.length_insertionSort]
    simp
    omega

/-! ### The validator -/

theorem validate_eq_none {req : Request}
    (hbad : req.args.lookup "name" = none
      ∨ (∃ n, req.args.lookup "name" = some n ∧ (n.length = 0 ∨ n.length > 20))
      ∨ req.args.lookup "score" = none
      ∨ (∃ s, req.args.lookup "score" = some s ∧ pyFloatOfString s = none)
      ∨ (∃ s f, req.args.lookup "score" = some s ∧ pyFloatOfString s = some f ∧
          ((pyRound1 f).le pyZero = true ∨ pyHundredK.lt (pyRound1 f) = true))) :
    validate req = none := by
  rcases hbad with h | ⟨n, hn, hlen⟩ | h | ⟨s, hs, hp⟩ | ⟨s, f, hs, hp, hr⟩
  · simp [validate, h]
  · simp [validate, hn, hlen]
  · rw [validate]
    cases hname : req.args.lookup "name" with
    | none => rfl
    | some n =>
      by_cases hlen : n.length = 0 ∨ n.length > 20
      · simp [hlen]
      · simp [hlen, h]
  · rw [validate]
    cases hname : req.args.lookup "name" with
    | none => rfl
    | some n =>
      by_cases hlen : n.length = 0 ∨ n.length > 20
      · simp [hlen]
      · simp [hlen, hs, hp]
  · rw [validate]
    cases hname : req.args.lookup "name" with
    | none => rfl
    | some n =>
      by_cases hlen : n.length = 0 ∨ n.length > 20
      · simp [hlen]
      · rcases hr with h | h <;> simp [hlen, hs, hp, h]

theorem validate_eq_some {req : Request} {name s : String} {m sc : ℤ}
    (hn : req.args.lookup "name" = some name)
    (h0 : ¬ (name.length = 0 ∨ name.length > 20))
    (hs : req.args.lookup "score" = some s)
    (hp : pyFloatOfString s = some (.finite m sc))
    (hr1 : (pyRound1 (.finite m sc)).le pyZero = false)
    (hr2 : pyHundredK.lt (pyRound1 (.finite m sc)) = false) :
    validate req = some (name, ⟨rheTimes10 m sc, 1⟩) := by
  simp only [validate, hn, hs, hp]
  rw [if_neg h0, if_neg (by simp [hr1, hr2])]

/-! ### The router and the handlers -/

theorem main_not_found {req : Request} {now : String} {st : Storage}
    (h1 : req.path ≠ "/") (h2 : ¬ (req.path = "/submit" ∧ req.method = "POST")) :
    main req now st = .ok (badRequest, st) := by
  rw [main, if_neg h1, if_neg h2]

theorem main_root_ok {req : Request} {now text : String} {st : Storage}
    (h1 : req.path = "/") (hc : st.content = .ok text) :
    main req now st = .ok (⟨.text text, 200, headers⟩, st) := by
  rw [main, if_pos h1]
  simp [list_highscores, read_storage, hc]

theorem main_root_err {req : Request} {now : String} {st : Storage}
    (h1 : req.path = "/") (hc : st.content = .error ()) :
    main req now st = .error () := by
  rw [main, if_pos h1]
  simp [list_highscores, read_storage, hc]

theorem main_submit_400 {req : Request} {now : String} {st : Storage}
    (h1 : req.path = "/submit") (h2 : req.method = "POST") (hv : validate req = none) :
    main req now st = .ok (badRequest, st) := by
  rw [main, if_neg (by rw [h1]; decide), if_pos ⟨h1, h2⟩]
  simp [submit, hv]

theorem main_submit_ok {req : Request} {now text : String} {st : Storage} {name : String}
    {score : Decimal} {data : Leaderboard}
    (h1 : req.path = "/submit") (h2 : req.method = "POST")
    (hv : validate req = some (name, score))
    (hc : st.content = .ok text) (hl : loadsLb text = some data) (hw : st.writeOk = true) :
    main req now st
      = .ok (⟨.json (updateBoard ⟨name, score, now⟩ data), 200, headers⟩,
          ⟨.ok (dumpsLb (updateBoard ⟨name, score, now⟩ data)), true⟩) := by
  obtain ⟨content, wk⟩ := st
  simp only at hc hw
  subst hc
  subst hw
  rw [main, if_neg (by rw [h1]; decide), if_pos ⟨h1, h2⟩]
  simp [submit, hv, read_storage, hl, write_storage]

theorem main_submit_read_err {req : Request} {now : String} {st : Storage} {nmsc : String × Decimal}
    (h1 : req.path = "/submit") (h2 : req.method = "POST")
    (hv : validate req = some nmsc) (hc : st.content = .error ()) :
    main req now st = .error () := by
  rw [main, if_neg (by rw [h1]; decide), if_pos ⟨h1, h2⟩]
  simp [submit, hv, read_storage, hc]

theorem main_submit_write_err {req : Request} {now text : String} {st : Storage}
    {nmsc : String × Decimal} {data : Leaderboard}
    (h1 : req.path = "/submit") (h2 : req.method = "POST")
    (hv : validate req = some nmsc) (hc : st.content = .ok text)
    (hl : loadsLb text = some data) (hw : st.writeOk = false) :
    main req now st = .error () := by
  rw [main, if_neg (by rw [h1]; decide), if_pos ⟨h1, h2⟩]
  simp [submit, hv, read_storage, hc, hl, write_storage, hw]

/-! ### Signs of rounded scores -/

theorem rheDiv_nonneg {n d : ℤ} (hn : 0 ≤ n) (hd : 0 < d) : 0 ≤ rheDiv n d := by
  have hq : 0 ≤ n / d := Int.ediv_nonneg hn hd.le
  simp only [rheDiv]
  split_ifs
  · exact hq
  · exact add_nonneg hq (by norm_num)
  · exact hq
  · exact add_nonneg hq (by norm_num)

theorem ndDen_pos (E : ℤ) : 0 < ndDen E := by
  unfold ndDen
  split <;> positivity

theorem ndMant_nonneg (D : ℕ) (E : ℤ) : 0 ≤ ndMant D E := by
  unfold ndMant
  split_ifs
  · refine rheDiv_nonneg (by positivity) ?_
    exact_mod_cast Nat.mul_pos (ndDen_pos E) (pow_pos (by norm_num) _)
  · refine rheDiv_nonneg (by positivity) ?_
    exact_mod_cast ndDen_pos E

theorem nearestDouble_shape (D : ℕ) (E : ℤ) :
    (∃ m s, nearestDouble D E = .finite m s ∧ 0 ≤ m) ∨ nearestDouble D E = .inf := by
  unfold nearestDouble
  split_ifs
  · exact Or.inr rfl
  · exact Or.inl ⟨_, _, rfl, ndMant_nonneg D E⟩

theorem floatOfDecCore_shape (D : ℕ) (E : ℤ) :
    (∃ m s, floatOfDecCore D E = .finite m s ∧ 0 ≤ m) ∨ floatOfDecCore D E = .inf := by
  unfold floatOfDecCore
  split_ifs with h1 h2
  · exact Or.inl ⟨0, 0, rfl, le_rfl⟩
  · exact Or.inr rfl
  · exact nearestDouble_shape D E

/-- Rounding a score to a nonpositive tenths value (`k ≤ 0`) always fails
the `score <= 0` test: the double nearest `k / 10` is nonpositive. -/
theorem doubleOfDec_le_zero {k : ℤ} (hk : k ≤ 0) (E : ℤ) :
    (doubleOfDec k E).le pyZero = true := by
  unfold doubleOfDec
  split_ifs with h1 h2
  · decide
  · rcases floatOfDecCore_shape k.natAbs E with ⟨m, s, hf, hm⟩ | hf
    · rw [hf]
      show PyFloat.le (.finite (-m) s) (.finite 0 0) = true
      unfold PyFloat.le
      rw [decide_eq_true_eq]
      have h3 := mul_le_mul_of_nonneg_right (show (-m : ℤ) ≤ 0 by omega)
        (show (0 : ℤ) ≤ ((2 ^ (s - min s 0).toNat : ℕ) : ℤ) by positivity)
      simpa using h3
    · rw [hf]
      rfl
  · omega

/-! ### The claims -/


/-- C1: for every valid submission (one that passes `validate`) processed
against any prior persisted leaderboard, the list written back to storage
has at most 10 elements and its scores are in non-increasing order. -/
theorem claim_C1 {req : Request} {now text : String} {st : Storage} {name : String}
    {score : Decimal} {data : Leaderboard}
    (h1 : req.path = "/submit") (h2 : req.method = "POST")
    (hv : validate req = some (name, score))
    (hc : st.content = .ok text) (hl : loadsLb text = some data) (hw : st.writeOk = true) :
    ∃ st2 resp, main req now st = .ok (resp, st2)
      ∧ st2.content = .ok (dumpsLb (updateBoard ⟨name, score, now⟩ data))
      ∧ (updateBoard ⟨name, score, now⟩ data).length ≤ 10
      ∧ (updateBoard ⟨name, score, now⟩ data).Sorted
          (fun a b => b.score.toRat ≤ a.score.toRat) := by
  refine ⟨_, _, main_submit_ok h1 h2 hv hc hl hw, rfl, ?_, updateBoard_sorted_toRat _ _⟩
  rw [updateBoard_length]
  omega

theorem claim_C1_witness :
    ∃ st2 resp, main ⟨"/submit", "POST", [("name", "A"), ("score", "55.5")], []⟩ "t0"
        ⟨.ok (dumpsLb [⟨"B", ⟨40, 0⟩, "t1"⟩]), true⟩ = .ok (resp, st2)
      ∧ st2.content = .ok (dumpsLb (updateBoard ⟨"A", ⟨555, 1⟩, "t0"⟩ [⟨"B", ⟨40, 0⟩, "t1"⟩]))
      ∧ (updateBoard ⟨"A", ⟨555, 1⟩, "t0"⟩ [⟨"B", ⟨40, 0⟩, "t1"⟩]).length ≤ 10
      ∧ (updateBoard ⟨"A", ⟨555, 1⟩, "t0"⟩ [⟨"B", ⟨40, 0⟩, "t1"⟩]).Sorted
          (fun a b => b.score.toRat ≤ a.score.toRat) :=
  claim_C1 rfl rfl (by decide) rfl (by decide) rfl

/-- C2: when a valid submission's score ties with existing entries, the new
entry is placed before every pre-existing entry of equal score (stated
through the filter characterization of the sorted sequence); concretely,
submitting `C` with score 50 against the persisted list
`[{A, 50}, {B, 40}]` yields `[{C, 50}, {A, 50}, {B, 40}]`. -/
theorem claim_C2 :
    (∀ (entry : ScoreEntry) (data : Leaderboard),
      (List.insertionSort entryGE (entry :: data)).filter
          (fun e => decide (e.score.toRat = entry.score.toRat))
        = entry :: data.filter (fun e => decide (e.score.toRat = entry.score.toRat)))
    ∧ main ⟨"/submit", "POST", [("name", "C"), ("score", "50")], []⟩ "tC"
        ⟨.ok (dumpsLb [⟨"A", ⟨50, 0⟩, "tA"⟩, ⟨"B", ⟨40, 0⟩, "tB"⟩]), true⟩
      = .ok (⟨.json [⟨"C", ⟨500, 1⟩, "tC"⟩, ⟨"A", ⟨50, 0⟩, "tA"⟩, ⟨"B", ⟨40, 0⟩, "tB"⟩],
            200, headers⟩,
          ⟨.ok (dumpsLb [⟨"C", ⟨500, 1⟩, "tC"⟩, ⟨"A", ⟨50, 0⟩, "tA"⟩, ⟨"B", ⟨40, 0⟩, "tB"⟩]),
            true⟩) := by
  constructor
  · intro entry data
    rw [filter_insertionSort_score, List.filter_cons, if_pos (by simp)]
  · decide

/-- C3: a submission with `name` missing, empty or longer than 20
characters, or with `score` missing, failing to parse as a float (stated
for ASCII input; CPython additionally maps non-ASCII digit and space
forms), or parsing to a double whose one-decimal rounding fails the
`score <= 0 or score > 100000` test (IEEE comparisons, so `±inf` is
covered and `nan` is not), is answered with the `"Bad request"`/400 tuple
and the storage is left untouched. -/
theorem claim_C3 {req : Request} {now : String} {st : Storage}
    (h1 : req.path = "/submit") (h2 : req.method = "POST")
    (hbad : req.args.lookup "name" = none
      ∨ (∃ n, req.args.lookup "name" = some n ∧ (n.length = 0 ∨ n.length > 20))
      ∨ req.args.lookup "score" = none
      ∨ (∃ s, req.args.lookup "score" = some s ∧ (∀ c ∈ s.data, c.toNat < 128) ∧
          pyFloatOfString s = none)
      ∨ (∃ s f, req.args.lookup "score" = some s ∧ pyFloatOfString s = some f ∧
          ((pyRound1 f).le pyZero = true ∨ pyHundredK.lt (pyRound1 f) = true))) :
    main req now st = .ok (badRequest, st) := by
  refine main_submit_400 h1 h2 (validate_eq_none ?_)
  rcases hbad with h | h | h | ⟨s, hs, _, hpn⟩ | h
  · exact Or.inl h
  · exact Or.inr (Or.inl h)
  · exact Or.inr (Or.inr (Or.inl h))
  · exact Or.inr (Or.inr (Or.inr (Or.inl ⟨s, hs, hpn⟩)))
  · exact Or.inr (Or.inr (Or.inr (Or.inr h)))

theorem claim_C3_witness :
    main ⟨"/submit", "POST", [("score", "50")], []⟩ "t" ⟨.ok "[]", true⟩
      = .ok (badRequest, ⟨.ok "[]", true⟩) :=
  claim_C3 rfl rfl (Or.inl (by decide))

/-- C4: a score whose double rounds at one decimal place to a nonpositive
tenths value (`k ≤ 0`: exactly 0 or negative) or to exactly `100000.1`
(`k = 1000001`) is rejected with the 400 tuple and no storage change,
while a score whose double rounds to exactly `100000` (`k = 1000000`) is
accepted and, when storage cooperates, answered with status 200.
`roundMant f = some k` says `round(f, 1)` is the double nearest `k / 10`,
so the accepted range of the rounded value is `0 < k / 10 ≤ 100000`. -/
theorem claim_C4 :
    (∀ (req : Request) (now : String) (st : Storage) (s : String) (f : PyFloat) (k : ℤ),
      req.path = "/submit" → req.method = "POST" →
      req.args.lookup "score" = some s → pyFloatOfString s = some f →
      roundMant f = some k → (k ≤ 0 ∨ k = 1000001) →
      main req now st = .ok (badRequest, st))
    ∧ (∀ (req : Request) (now : String) (st : Storage) (name s text : String) (m sc : ℤ)
        (data : Leaderboard),
      req.path = "/submit" → req.method = "POST" →
      req.args.lookup "name" = some name → name.length ≠ 0 → name.length ≤ 20 →
      req.args.lookup "score" = some s → pyFloatOfString s = some (.finite m sc) →
      rheTimes10 m sc = 1000000 →
      st.content = .ok text → loadsLb text = some data → st.writeOk = true →
      ∃ lb st2, main req now st = .ok (⟨.json lb, 200, headers⟩, st2)) := by
  constructor
  · intro req now st s f k h1 h2 hs hp hk hcond
    cases f with
    | finite m sc =>
      have hk2 : rheTimes10 m sc = k := by simpa [roundMant] using hk
      refine main_submit_400 h1 h2 (validate_eq_none (Or.inr (Or.inr (Or.inr (Or.inr
        ⟨s, .finite m sc, hs, hp, ?_⟩)))))
      have hpr : pyRound1 (.finite m sc) = doubleOfDec (rheTimes10 m sc) (-1) := rfl
      rcases hcond with h | h
      · exact Or.inl (by rw [hpr, hk2]; exact doubleOfDec_le_zero h (-1))
      · exact Or.inr (by rw [hpr, hk2, h]; decide)
    | inf => simp [roundMant] at hk
    | neginf => simp [roundMant] at hk
    | nan => simp [roundMant] at hk
  · intro req now st name s text m sc data h1 h2 hn h0 h20 hs hp hk hc hl hw
    have hpr : pyRound1 (.finite m sc) = doubleOfDec (rheTimes10 m sc) (-1) := rfl
    have hr1 : (pyRound1 (.finite m sc)).le pyZero = false := by
      rw [hpr, hk]
      decide
    have hr2 : pyHundredK.lt (pyRound1 (.finite m sc)) = false := by
      rw [hpr, hk]
      decide
    exact ⟨_, _, main_submit_ok h1 h2 (validate_eq_some hn (by omega) hs hp hr1 hr2) hc hl hw⟩

theorem claim_C4_witness :
    main ⟨"/submit", "POST", [("name", "A"), ("score", "0.04")], []⟩ "t" ⟨.ok "[]", true⟩
      = .ok (badRequest, ⟨.ok "[]", true⟩)
    ∧ main ⟨"/submit", "POST", [("name", "A"), ("score", "-3")], []⟩ "t" ⟨.ok "[]", true⟩
      = .ok (badRequest, ⟨.ok "[]", true⟩)
    ∧ main ⟨"/submit", "POST", [("name", "A"), ("score", "100000.1")], []⟩ "t" ⟨.ok "[]", true⟩
      = .ok (badRequest, ⟨.ok "[]", true⟩)
    ∧ (∃ lb st2, main ⟨"/submit", "POST", [("name", "A"), ("score", "100000")], []⟩ "t"
        ⟨.ok (dumpsLb []), true⟩ = .ok (⟨.json lb, 200, headers⟩, st2)) :=
  ⟨claim_C4.1 _ _ _ "0.04" (.finite 5764607523034235 (-57)) 0 rfl rfl (by decide) (by decide)
      (by decide) (Or.inl (by decide)),
   claim_C4.1 _ _ _ "-3" (.finite (-6755399441055744) (-51)) (-30) rfl rfl (by decide)
      (by decide) (by decide) (Or.inl (by decide)),
   claim_C4.1 _ _ _ "100000.1" (.finite 6871954545547674 (-36)) 1000001 rfl rfl (by decide)
      (by decide) (by decide) (Or.inr (by decide)),
   claim_C4.2 _ _ _ "A" "100000" (dumpsLb []) 6871947673600000 (-36) [] rfl rfl (by decide)
      (by decide) (by decide) (by decide) (by decide) (by decide) rfl (by decide) rfl⟩

/-- C5: for every valid submission (spelled out: `name` present with length
1–20, `score` present and parsing to a finite double that passes the range
test after rounding), the handler reads the persisted array, builds the
entry from the validated name, the rounded score (the tenths decimal
`rheTimes10 m sc / 10`, which is what `json.dumps` prints for the rounded
double) and the timestamp, prepends it, stable-sorts by descending score,
keeps the first 10, writes that list back wholesale and returns the same
list with status 200.  The sort used satisfies the stable-sort
characterization: sorted by non-increasing score, a permutation of its
input, and score-preserving under filtering by any fixed score. -/
theorem claim_C5 {req : Request} {now text : String} {st : Storage} {name s : String}
    {m sc : ℤ} {data : Leaderboard}
    (h1 : req.path = "/submit") (h2 : req.method = "POST")
    (hn : req.args.lookup "name" = some name)
    (h0 : name.length ≠ 0) (h20 : name.length ≤ 20)
    (hs : req.args.lookup "score" = some s)
    (hp : pyFloatOfString s = some (.finite m sc))
    (hr1 : (pyRound1 (.finite m sc)).le pyZero = false)
    (hr2 : pyHundredK.lt (pyRound1 (.finite m sc)) = false)
    (hc : st.content = .ok text) (hl : loadsLb text = some data) (hw : st.writeOk = true) :
    main req now st
      = .ok (⟨.json (updateBoard ⟨name, ⟨rheTimes10 m sc, 1⟩, now⟩ data), 200, headers⟩,
          ⟨.ok (dumpsLb (updateBoard ⟨name, ⟨rheTimes10 m sc, 1⟩, now⟩ data)), true⟩)
    ∧ updateBoard ⟨name, ⟨rheTimes10 m sc, 1⟩, now⟩ data
        = (List.insertionSort entryGE (⟨name, ⟨rheTimes10 m sc, 1⟩, now⟩ :: data)).take 10
    ∧ (List.insertionSort entryGE (⟨name, ⟨rheTimes10 m sc, 1⟩, now⟩ :: data)).Sorted
        (fun a b => b.score.toRat ≤ a.score.toRat)
    ∧ (List.insertionSort entryGE (⟨name, ⟨rheTimes10 m sc, 1⟩, now⟩ :: data)).Perm
        (⟨name, ⟨rheTimes10 m sc, 1⟩, now⟩ :: data)
    ∧ (∀ q : ℚ, (List.insertionSort entryGE
            (⟨name, ⟨rheTimes10 m sc, 1⟩, now⟩ :: data)).filter
          (fun e => decide (e.score.toRat = q))
        = (⟨name, ⟨rheTimes10 m sc, 1⟩, now⟩ :: data).filter
            (fun e => decide (e.score.toRat = q))) :=
  ⟨main_submit_ok h1 h2 (validate_eq_some hn (by omega) hs hp hr1 hr2) hc hl hw, rfl,
   (List.sorted_insertionSort entryGE _).imp (fun h => Decimal.le_iff_toRat.mp h),
   List.perm_insertionSort entryGE _,
   fun q => filter_insertionSort_score q _⟩

theorem claim_C5_witness :
    main ⟨"/submit", "POST", [("name", "A"), ("score", "55.5")], []⟩ "t0"
        ⟨.ok (dumpsLb [⟨"B", ⟨40, 0⟩, "t1"⟩, ⟨"D", ⟨60, 0⟩, "t2"⟩]), true⟩
      = .ok (⟨.json (updateBoard ⟨"A", ⟨555, 1⟩, "t0"⟩
              [⟨"B", ⟨40, 0⟩, "t1"⟩, ⟨"D", ⟨60, 0⟩, "t2"⟩]), 200, headers⟩,
          ⟨.ok (dumpsLb (updateBoard ⟨"A", ⟨555, 1⟩, "t0"⟩
              [⟨"B", ⟨40, 0⟩, "t1"⟩, ⟨"D", ⟨60, 0⟩, "t2"⟩])), true⟩) := by
  have h := (@claim_C5 ⟨"/submit", "POST", [("name", "A"), ("score", "55.5")], []⟩ "t0"
    (dumpsLb [⟨"B", ⟨40, 0⟩, "t1"⟩, ⟨"D", ⟨60, 0⟩, "t2"⟩])
    ⟨.ok (dumpsLb [⟨"B", ⟨40, 0⟩, "t1"⟩, ⟨"D", ⟨60, 0⟩, "t2"⟩]), true⟩
    "A" "55.5" 7810930603720704 (-47) [⟨"B", ⟨40, 0⟩, "t1"⟩, ⟨"D", ⟨60, 0⟩, "t2"⟩]
    rfl rfl (by decide) (by decide) (by decide) (by decide) (by decide) (by decide)
    (by decide) rfl (by decide) rfl).1
  rw [show rheTimes10 7810930603720704 (-47) = 555 from by decide] at h
  exact h

/-- C6: every request whose path is neither `/` nor a `POST` to `/submit`
is answered with the `"Bad request"`/400 tuple and the storage is left
untouched. -/
theorem claim_C6 {req : Request} {now : String} {st : Storage}
    (h1 : req.path ≠ "/") (h2 : ¬ (req.path = "/submit" ∧ req.method = "POST")) :
    main req now st = .ok (badRequest, st) :=
  main_not_found h1 h2

theorem claim_C6_witness :
    main ⟨"/foo", "GET", [], []⟩ "t" ⟨.ok "[]", true⟩ = .ok (badRequest, ⟨.ok "[]", true⟩)
    ∧ main ⟨"/submit", "GET", [], []⟩ "t" ⟨.ok "[]", true⟩
      = .ok (badRequest, ⟨.ok "[]", true⟩) :=
  ⟨claim_C6 (by decide) (by decide), claim_C6 (by decide) (by decide)⟩

/-- C7, as stated, is false: the handler reads `request.args`, which holds
only the URL query-string parameters, so a `POST /submit` delivering valid
`name` and `score` solely form-encoded is answered 400, unlike the same
parameters delivered as query parameters. -/
theorem claim_C7_counterexample :
    main ⟨"/submit", "POST", [], [("name", "C"), ("score", "50")]⟩ "t"
        ⟨.ok (dumpsLb []), true⟩
      = .ok (badRequest, ⟨.ok (dumpsLb []), true⟩)
    ∧ main ⟨"/submit", "POST", [("name", "C"), ("score", "50")], []⟩ "t"
        ⟨.ok (dumpsLb []), true⟩
      ≠ main ⟨"/submit", "POST", [], [("name", "C"), ("score", "50")]⟩ "t"
        ⟨.ok (dumpsLb []), true⟩ := by
  constructor
  · decide
  · decide

/-- C7 amended: form-encoded body parameters are ignored — the response
depends only on the query-string parameters (`request.args`), and a
`POST /submit` whose parameters arrive only in the form body is rejected
with the `"Bad request"`/400 tuple. -/
theorem claim_C7_amended :
    (∀ (req : Request) (now : String) (st : Storage) (f : List (String × String)),
      main { req with form := f } now st = main { req with form := [] } now st)
    ∧ (∀ (now : String) (st : Storage) (f : List (String × String)),
      main ⟨"/submit", "POST", [], f⟩ now st = .ok (badRequest, st)) := by
  constructor
  · intro req now st f
    cases req
    rfl
  · intro now st f
    exact main_submit_400 rfl rfl (validate_eq_none (Or.inl rfl))

/-- C8: serializing any leaderboard to the persisted JSON text and reading
it back yields the same sequence of entries — same names, scores and
timestamps in the same order. -/
theorem claim_C8 (lb : Leaderboard) : loadsLb (dumpsLb lb) = some lb :=
  loads_dumps lb

/-- C9: storage failures are not turned into 400 responses: a failing read
under `/`, a failing read under a valid `/submit`, and a failing write
under a valid `/submit` all propagate as an unhandled error out of the
application code. -/
theorem claim_C9 :
    (∀ (req : Request) (now : String) (st : Storage), req.path = "/" →
      st.content = .error () → main req now st = .error ())
    ∧ (∀ (req : Request) (now : String) (st : Storage) (nmsc : String × Decimal),
      req.path = "/submit" → req.method = "POST" → validate req = some nmsc →
      st.content = .error () → main req now st = .error ())
    ∧ (∀ (req : Request) (now : String) (st : Storage) (nmsc : String × Decimal)
        (text : String) (data : Leaderboard),
      req.path = "/submit" → req.method = "POST" → validate req = some nmsc →
      st.content = .ok text → loadsLb text = some data → st.writeOk = false →
      main req now st = .error ()) :=
  ⟨fun _ _ _ h1 hc => main_root_err h1 hc,
   fun _ _ _ _ h1 h2 hv hc => main_submit_read_err h1 h2 hv hc,
   fun _ _ _ _ _ _ h1 h2 hv hc hl hw => main_submit_write_err h1 h2 hv hc hl hw⟩

theorem claim_C9_witness :
    main ⟨"/", "GET", [], []⟩ "t" ⟨.error (), true⟩ = .error ()
    ∧ main ⟨"/submit", "POST", [("name", "A"), ("score", "5")], []⟩ "t"
        ⟨.error (), true⟩ = .error ()
    ∧ main ⟨"/submit", "POST", [("name", "A"), ("score", "5")], []⟩ "t"
        ⟨.ok (dumpsLb []), false⟩ = .error () :=
  ⟨claim_C9.1 _ "t" _ rfl rfl,
   claim_C9.2.1 _ "t" _ ("A", ⟨50, 1⟩) rfl rfl (by decide) rfl,
   claim_C9.2.2 _ "t" _ ("A", ⟨50, 1⟩) (dumpsLb []) [] rfl rfl (by decide) rfl
     (by decide) rfl⟩

/-- C10, as stated, is false: when the prior leaderboard already holds 10
entries that all outscore the submission, the new entry itself is sorted
last and truncated away, so the resulting list does not contain the new
entry at all (here: 10 prior entries of score 100 against a submission of
score 50). -/
theorem claim_C10_counterexample :
    (updateBoard ⟨"C", ⟨500, 1⟩, "tC"⟩
        [⟨"P1", ⟨1000, 1⟩, "t"⟩, ⟨"P2", ⟨1000, 1⟩, "t"⟩, ⟨"P3", ⟨1000, 1⟩, "t"⟩,
         ⟨"P4", ⟨1000, 1⟩, "t"⟩, ⟨"P5", ⟨1000, 1⟩, "t"⟩, ⟨"P6", ⟨1000, 1⟩, "t"⟩,
         ⟨"P7", ⟨1000, 1⟩, "t"⟩, ⟨"P8", ⟨1000, 1⟩, "t"⟩, ⟨"P9", ⟨1000, 1⟩, "t"⟩,
         ⟨"PA", ⟨1000, 1⟩, "t"⟩]).length = 10
    ∧ ⟨"C", ⟨500, 1⟩, "tC"⟩ ∉ updateBoard ⟨"C", ⟨500, 1⟩, "tC"⟩
        [⟨"P1", ⟨1000, 1⟩, "t"⟩, ⟨"P2", ⟨1000, 1⟩, "t"⟩, ⟨"P3", ⟨1000, 1⟩, "t"⟩,
         ⟨"P4", ⟨1000, 1⟩, "t"⟩, ⟨"P5", ⟨1000, 1⟩, "t"⟩, ⟨"P6", ⟨1000, 1⟩, "t"⟩,
         ⟨"P7", ⟨1000, 1⟩, "t"⟩, ⟨"P8", ⟨1000, 1⟩, "t"⟩, ⟨"P9", ⟨1000, 1⟩, "t"⟩,
         ⟨"PA", ⟨1000, 1⟩, "t"⟩] := by
  constructor
  · decide
  · decide

/-- C10 amended: the resulting list has exactly `min (n + 1) 10` elements,
all drawn unchanged from the new entry and the prior entries (a
sub-permutation of the new entry prepended to the prior list); whenever
the prior list holds fewer than 10 entries the result is exactly a
permutation of the new entry plus all prior entries — in particular a
repeated name then coexists with, rather than replaces, the older entry —
but when the prior list already holds 10 entries the dropped element may
be the new entry itself. -/
theorem claim_C10_amended (entry : ScoreEntry) (data : Leaderboard) :
    (updateBoard entry data).length = min (data.length + 1) 10
    ∧ (updateBoard entry data).Subperm (entry :: data)
    ∧ (data.length < 10 → (updateBoard entry data).Perm (entry :: data)) :=
  ⟨updateBoard_length entry data, updateBoard_subperm entry data,
   fun h => updateBoard_perm_of_lt h⟩

theorem claim_C10_witness :
    (updateBoard ⟨"C", ⟨500, 1⟩, "tC"⟩ [⟨"A", ⟨50, 0⟩, "tA"⟩]).length = min (1 + 1) 10
    ∧ (updateBoard ⟨"C", ⟨500, 1⟩, "tC"⟩ [⟨"A", ⟨50, 0⟩, "tA"⟩]).Subperm
        (⟨"C", ⟨500, 1⟩, "tC"⟩ :: [⟨"A", ⟨50, 0⟩, "tA"⟩])
    ∧ (updateBoard ⟨"C", ⟨500, 1⟩, "tC"⟩ [⟨"A", ⟨50, 0⟩, "tA"⟩]).Perm
        (⟨"C", ⟨500, 1⟩, "tC"⟩ :: [⟨"A", ⟨50, 0⟩, "tA"⟩]) :=
  ⟨(claim_C10_amended ⟨"C", ⟨500, 1⟩, "tC"⟩ [⟨"A", ⟨50, 0⟩, "tA"⟩]).1,
   (claim_C10_amended ⟨"C", ⟨500, 1⟩, "tC"⟩ [⟨"A", ⟨50, 0⟩, "tA"⟩]).2.1,
   (claim_C10_amended ⟨"C", ⟨500, 1⟩, "tC"⟩ [⟨"A", ⟨50, 0⟩, "tA"⟩]).2.2 (by decide)⟩

end Asteroids
